import Mathlib

/-!
Verification development for the VHCI-to-stpbt bridge
(`src/vhci_stpbt_bridge.c`).

The program is embedded shallowly: byte buffers are `List Nat` (each
element an `unsigned char` value, hence `< 256` where it matters),
the C `int` return of `get_packet_len` is `Int` (it can be `-1`),
and the I/O loop of `main` is a state machine driven by explicit
oracle events (select outcomes, read outcomes, write return values).
-/

namespace Bridge

/-- `#define BUF_SIZE 4096` -/
def BUF_SIZE : Nat := 4096

/-- `#define HCI_COMMAND_PKT 0x01` -/
def HCI_COMMAND_PKT : Nat := 0x01
/-- `#define HCI_ACLDATA_PKT 0x02` -/
def HCI_ACLDATA_PKT : Nat := 0x02
/-- `#define HCI_SCODATA_PKT 0x03` -/
def HCI_SCODATA_PKT : Nat := 0x03
/-- `#define HCI_EVENT_PKT 0x04` -/
def HCI_EVENT_PKT : Nat := 0x04
/-- `#define HCI_VENDOR_PKT 0xff` (same value as `HCI_VHCI_PKT`) -/
def HCI_VENDOR_PKT : Nat := 0xff

/--
Embedding of `get_packet_len(const unsigned char *buf, int len, int
*is_vhci_internal)` (vhci_stpbt_bridge.c:67-116).  The buffer pointer and
the length argument are fused into one `List Nat`; the returned pair is
(return value, final value of `*is_vhci_internal`).  `buf[3] | (buf[4] << 8)`
is kept literally as `|||`/`<<<` on the byte values.
-/
def get_packet_len (buf : List Nat) : Int × Bool :=
  if buf.length < 1 then (0, false)
  else if buf.getD 0 0 = HCI_COMMAND_PKT then
    -- 1 (type) + 2 (opcode) + 1 (param_len) + param_len
    if buf.length < 4 then (0, false)
    else (((4 + buf.getD 3 0 : Nat) : Int), false)
  else if buf.getD 0 0 = HCI_ACLDATA_PKT then
    -- 1 (type) + 2 (handle) + 2 (data_len) + data_len
    if buf.length < 5 then (0, false)
    else (((5 + (buf.getD 3 0 ||| (buf.getD 4 0 <<< 8)) : Nat) : Int), false)
  else if buf.getD 0 0 = HCI_SCODATA_PKT then
    -- 1 (type) + 2 (handle) + 1 (data_len) + data_len
    if buf.length < 4 then (0, false)
    else (((4 + buf.getD 3 0 : Nat) : Int), false)
  else if buf.getD 0 0 = HCI_EVENT_PKT then
    -- 1 (type) + 1 (event) + 1 (param_len) + param_len
    if buf.length < 3 then (0, false)
    else (((3 + buf.getD 2 0 : Nat) : Int), false)
  else if buf.getD 0 0 = HCI_VENDOR_PKT then
    -- vendor packets vary in size - consume what we have
    if buf.length < 2 then (0, true)
    else ((buf.length : Int), true)
  else (-1, false)

/--
The packet-extraction loop `while (vhci_len > 0) { ... }`
(vhci_stpbt_bridge.c:217-243 and 256-276), with the forwarding / logging
side effects stripped (they are layered on separately below).  The loop
runs `get_packet_len`; a non-positive or too-large result breaks out;
otherwise the first `pkt_len` bytes are emitted as one packet (paired with
the `is_vhci_internal` flag) and removed from the buffer (`memmove`).
`fuel` bounds the recursion; each iteration consumes at least one byte, so
`fuel = buf.length` is always enough (see `extractLoop_congr`).
-/
def extractLoop : Nat → List Nat → List (List Nat × Bool) × List Nat
  | 0, buf => ([], buf)
  | fuel + 1, buf =>
    if 0 < buf.length then
      if 0 < (get_packet_len buf).1 ∧ (get_packet_len buf).1 ≤ (buf.length : Int) then
        ((buf.take (get_packet_len buf).1.toNat, (get_packet_len buf).2) ::
            (extractLoop fuel (buf.drop (get_packet_len buf).1.toNat)).1,
         (extractLoop fuel (buf.drop (get_packet_len buf).1.toNat)).2)
      else ([], buf)
    else ([], buf)

/-- One pass of the extraction loop over a buffer: the emitted packets (in
order, each with its `is_vhci_internal` flag) and the compacted leftover. -/
def extractPackets (buf : List Nat) : List (List Nat × Bool) × List Nat :=
  extractLoop buf.length buf

/-- One `feed` of newly read bytes into a direction's accumulator
(append, then run the extraction loop). -/
def feed (buf newBytes : List Nat) : List (List Nat × Bool) × List Nat :=
  extractPackets (buf ++ newBytes)

/-- Feeding a sequence of chunks, starting from an empty accumulator,
collecting every emitted packet in order. -/
def feedChunks (chunks : List (List Nat)) : List (List Nat × Bool) × List Nat :=
  chunks.foldl
    (fun st c =>
      let r := feed st.2 c
      (st.1 ++ r.1, r.2))
    (([] : List (List Nat × Bool)), ([] : List Nat))

/-- The diagnostic messages the program can emit on stderr:
the `fprintf` in `get_packet_len`'s default branch, and the `perror`
calls for short writes, failed reads and a failed `select`. -/
inductive LogEv where
  | unknownType (b : Nat)
  | shortWrite
  | readErr
  | selectErr
deriving DecidableEq

/-- Result of one run of the packet-processing `while` loop of `main`:
the payloads passed to `write` (in order), the diagnostics emitted, the
compacted leftover buffer, and the unconsumed write-result oracle. -/
structure ProcOut where
  writes : List (List Nat)
  logs : List LogEv
  buf : List Nat
  wres : List Nat
deriving DecidableEq

/--
The packet-processing loop of `main` with its side effects
(vhci_stpbt_bridge.c:217-243 for the vhci side, 256-276 for the stpbt
side).  `dropInternal = true` models the vhci side, which skips the
`write` for packets flagged `is_vhci_internal`; the stpbt side
(`dropInternal = false`) writes every packet.  `ws` is the oracle of
`write` return values, consumed one entry per `write` call; an
exhausted oracle means the write returned the full packet length.  A
`write` return different from `pkt_len` logs `shortWrite`
(`perror("write to ...")`) and the loop simply continues, as in the C.
The `fprintf` inside `get_packet_len`'s default branch is modelled here,
at the only call site, when the returned length is negative.
-/
def procLoop : Nat → List Nat → Bool → List Nat → ProcOut
  | 0, buf, _, ws => ⟨[], [], buf, ws⟩
  | fuel + 1, buf, dropInternal, ws =>
    if 0 < buf.length then
      if (get_packet_len buf).1 < 0 then
        ⟨[], [LogEv.unknownType (buf.getD 0 0)], buf, ws⟩
      else if 0 < (get_packet_len buf).1 ∧
          (get_packet_len buf).1 ≤ (buf.length : Int) then
        if dropInternal && (get_packet_len buf).2 then
          procLoop fuel (buf.drop (get_packet_len buf).1.toNat) dropInternal ws
        else
          ⟨buf.take (get_packet_len buf).1.toNat ::
              (procLoop fuel (buf.drop (get_packet_len buf).1.toNat)
                dropInternal ws.tail).writes,
           (if ws.headD (get_packet_len buf).1.toNat ≠
                (get_packet_len buf).1.toNat then
              [LogEv.shortWrite] else []) ++
             (procLoop fuel (buf.drop (get_packet_len buf).1.toNat)
               dropInternal ws.tail).logs,
           (procLoop fuel (buf.drop (get_packet_len buf).1.toNat)
             dropInternal ws.tail).buf,
           (procLoop fuel (buf.drop (get_packet_len buf).1.toNat)
             dropInternal ws.tail).wres⟩
      else ⟨[], [], buf, ws⟩
    else ⟨[], [], buf, ws⟩

/-- Outcome of one `read` attempt on an endpoint: data available
(possibly more than fits in the remaining buffer space — the kernel
returns at most the count it was passed), `EAGAIN`, or another error. -/
inductive ReadRes where
  | avail (data : List Nat)
  | eagain
  | fail
deriving DecidableEq

/-- Result of handling one readable endpoint. -/
structure DirOut where
  buf : List Nat
  writes : List (List Nat)
  logs : List LogEv
  wres : List Nat
deriving DecidableEq

/--
Handling of one endpoint reported readable
(vhci_stpbt_bridge.c:211-247 and 250-280):
`n = read(fd, buf + len, BUF_SIZE - len)`; `n > 0` appends and runs the
packet loop; `n <= 0` with `EAGAIN` is silently ignored; any other read
error runs `perror` and nothing else — the outer loop continues.
-/
def handleReadable (buf : List Nat) (rr : ReadRes) (dropInternal : Bool)
    (ws : List Nat) : DirOut :=
  match rr with
  | ReadRes.avail data =>
    let got := data.take (BUF_SIZE - buf.length)
    if 0 < got.length then
      let p := procLoop (buf ++ got).length (buf ++ got) dropInternal ws
      ⟨p.buf, p.writes, p.logs, p.wres⟩
    else ⟨buf, [], [], ws⟩
  | ReadRes.eagain => ⟨buf, [], [], ws⟩
  | ReadRes.fail => ⟨buf, [], [LogEv.readErr], ws⟩

/-- The mutable state of `main`'s bridge loop: the `running` flag (set
to 0 only by the signal handler) and the two accumulation buffers with
their fill levels. -/
structure BridgeState where
  running : Bool
  vhci_buf : List Nat
  stpbt_buf : List Nat
deriving DecidableEq

/-- Outcome of the `select` call in one loop iteration: an error
(distinguishing `EINTR`), a timeout, or readability of the endpoints
(`none` = not in the ready set; `some rr` = readable with read
outcome `rr`). -/
inductive SelectRes where
  | err (isEINTR : Bool)
  | timeout
  | ready (vhci : Option ReadRes) (stpbt : Option ReadRes)
deriving DecidableEq

/-- Observable outcome of one iteration of the bridge loop. -/
structure IterOut where
  st : BridgeState
  exited : Bool
  stpbtWrites : List (List Nat)
  vhciWrites : List (List Nat)
  logs : List LogEv
  wres : List Nat
deriving DecidableEq

/--
One iteration of `while (running) { ... }` (vhci_stpbt_bridge.c:186-281).
A `select` error retries on `EINTR` and otherwise `perror`s and breaks
out of the loop (`exited = true`); a timeout just continues.  Otherwise
each endpoint in the ready set is handled: the vhci side first (its
forwarded packets are written to stpbt, vendor-internal ones dropped),
then the stpbt side (every packet written to vhci).  Note the body never
modifies `running`: only the signal handler does.
-/
def loopIter (st : BridgeState) (ev : SelectRes) (ws : List Nat) : IterOut :=
  match ev with
  | SelectRes.err isEINTR =>
    if isEINTR then ⟨st, false, [], [], [], ws⟩
    else ⟨st, true, [], [], [LogEv.selectErr], ws⟩
  | SelectRes.timeout => ⟨st, false, [], [], [], ws⟩
  | SelectRes.ready vr sr =>
    let d1 := match vr with
      | some rr => handleReadable st.vhci_buf rr true ws
      | none => ⟨st.vhci_buf, [], [], ws⟩
    let d2 := match sr with
      | some rr => handleReadable st.stpbt_buf rr false d1.wres
      | none => ⟨st.stpbt_buf, [], [], d1.wres⟩
    ⟨⟨st.running, d1.buf, d2.buf⟩, false, d1.writes, d2.writes,
     d1.logs ++ d2.logs, d2.wres⟩

/-- Accumulated outcome of running the bridge loop over a sequence of
`select` outcomes. -/
structure RunOut where
  st : BridgeState
  brokeOnError : Bool
  stpbtWrites : List (List Nat)
  vhciWrites : List (List Nat)
  logs : List LogEv
deriving DecidableEq

/-- The bridge loop driven by a list of `select` outcomes (each with its
write-result oracle).  It stops when `running` is cleared (by the signal
handler) or when an iteration breaks out on a `select` error. -/
def runLoop : List (SelectRes × List Nat) → BridgeState → RunOut
  | [], st => ⟨st, false, [], [], []⟩
  | (ev, ws) :: evs, st =>
    if st.running then
      let it := loopIter st ev ws
      if it.exited then ⟨it.st, true, it.stpbtWrites, it.vhciWrites, it.logs⟩
      else
        let rest := runLoop evs it.st
        ⟨rest.st, rest.brokeOnError,
         it.stpbtWrites ++ rest.stpbtWrites,
         it.vhciWrites ++ rest.vhciWrites,
         it.logs ++ rest.logs⟩
    else ⟨st, false, [], [], []⟩

/--
The exit status logic of `main` (vhci_stpbt_bridge.c:130-159, 177-180,
283-293).  `ret` starts at 1; a failed open of either device or a failed
switch to non-blocking mode jumps to `cleanup` with `ret` still 1.  If
the loop is reached, then however it exits — cancellation or the
`select`-error `break` — execution falls through to `ret = 0`.  The
second component exposes the loop outcome for inspection.
-/
def mainRun (vhciOpenOk stpbtOpenOk nonblockOk : Bool)
    (evs : List (SelectRes × List Nat)) : Nat × Option RunOut :=
  if ¬vhciOpenOk then (1, none)
  else if ¬stpbtOpenOk then (1, none)
  else if ¬nonblockOk then (1, none)
  else
    let r := runLoop evs ⟨true, [], []⟩
    (0, some r)

/-- A buffer on which the extraction loop makes no progress: the
resolver reports need-more-bytes or an invalid type, or the computed
boundary lies beyond the buffered bytes. -/
def stuck (r : List Nat) : Prop :=
  ¬(0 < (get_packet_len r).1 ∧ (get_packet_len r).1 ≤ (r.length : Int))

instance (r : List Nat) : Decidable (stuck r) := by
  unfold stuck; infer_instance

/-- A complete well-formed frame of one of the four length-prefixed
types (Command, ACL-Data, SCO-Data, Event): its first byte is one of
those tags and the resolver computes exactly its length. -/
def wfPacket (f : List Nat) : Prop :=
  f ≠ [] ∧
    f.getD 0 0 ∈ [HCI_COMMAND_PKT, HCI_ACLDATA_PKT, HCI_SCODATA_PKT, HCI_EVENT_PKT] ∧
    (get_packet_len f).1 = (f.length : Int)

instance (f : List Nat) : Decidable (wfPacket f) := by
  unfold wfPacket; infer_instance

/-- The accumulator states reachable between `feed` calls while a
frame sequence is in transit: either empty, or a proper prefix of the
next (not yet fully arrived) frame. -/
def properRemainder (r : List Nat) (gs : List (List Nat)) : Prop :=
  r = [] ∨ ∃ g gs2, gs = g :: gs2 ∧ r.length < g.length ∧ r = g.take r.length

/-! ## Basic facts about `get_packet_len` -/

lemma getD_append_left {l t : List Nat} {i : Nat} (h : i < l.length) (d : Nat) :
    (l ++ t).getD i d = l.getD i d := by
  simp [List.getD_eq_getElem?_getD, List.getElem?_append_left h]

lemma getD_take_of_lt {l : List Nat} {i k : Nat} (h : i < k) (d : Nat) :
    (l.take k).getD i d = l.getD i d := by
  simp [List.getD_eq_getElem?_getD, List.getElem?_take_of_lt h]

/-- On an empty buffer the resolver asks for more bytes. -/
lemma get_packet_len_nil : get_packet_len [] = (0, false) := rfl

/-- The `is_vhci_internal` flag is set exactly on buffers starting 0xff. -/
lemma get_packet_len_internal_iff (buf : List Nat) (h : 0 < buf.length) :
    (get_packet_len buf).2 = true ↔ buf.getD 0 0 = HCI_VENDOR_PKT := by
  unfold get_packet_len
  split_ifs <;>
    simp_all [HCI_COMMAND_PKT, HCI_ACLDATA_PKT, HCI_SCODATA_PKT,
      HCI_EVENT_PKT, HCI_VENDOR_PKT]

/-- A buffer starting with an unknown tag resolves to `-1` (with the
internal flag clear). -/
lemma get_packet_len_invalid (buf : List Nat) (h : 0 < buf.length)
    (h1 : buf.getD 0 0 ≠ HCI_COMMAND_PKT) (h2 : buf.getD 0 0 ≠ HCI_ACLDATA_PKT)
    (h3 : buf.getD 0 0 ≠ HCI_SCODATA_PKT) (h4 : buf.getD 0 0 ≠ HCI_EVENT_PKT)
    (h5 : buf.getD 0 0 ≠ HCI_VENDOR_PKT) :
    get_packet_len buf = (-1, false) := by
  unfold get_packet_len
  split_ifs <;> simp_all

/-- The little-endian reading: for byte values, `b3 | (b4 << 8)` is
`b3 + 256 * b4`. -/
lemma lor_shiftLeft_eq_add (b3 b4 : Nat) (h : b3 < 256) :
    b3 ||| (b4 <<< 8) = b3 + 256 * b4 := by
  have hs : b4 <<< 8 = 2 ^ 8 * b4 := by
    rw [Nat.shiftLeft_eq]; ring
  rw [hs, Nat.lor_comm, ← Nat.mul_add_lt_is_or (by simpa using h) b4]
  ring

/-! ## The extraction loop: fuel adequacy and basic shape -/

lemma extractLoop_nil (fuel : Nat) : extractLoop fuel [] = ([], []) := by
  cases fuel <;> rfl

lemma extractLoop_stuck (fuel : Nat) (r : List Nat) (h : stuck r) :
    extractLoop fuel r = ([], r) := by
  cases fuel with
  | zero => rfl
  | succ n =>
    unfold extractLoop
    split_ifs with h1 h2
    · exact absurd h2 h
    · rfl
    · rfl

/-- The loop consumes at least one byte per emitted packet, so any fuel
of at least the buffer length computes the same result. -/
lemma extractLoop_congr : ∀ (f1 f2 : Nat) (buf : List Nat),
    buf.length ≤ f1 → buf.length ≤ f2 → extractLoop f1 buf = extractLoop f2 buf := by
  intro f1
  induction f1 with
  | zero =>
    intro f2 buf h1 _
    have hb : buf = [] := List.length_eq_zero.mp (Nat.le_zero.mp h1)
    subst hb
    rw [extractLoop_nil, extractLoop_nil]
  | succ n ih =>
    intro f2 buf h1 h2
    rcases f2 with _ | m
    · have hb : buf = [] := List.length_eq_zero.mp (Nat.le_zero.mp h2)
      subst hb
      rw [extractLoop_nil, extractLoop_nil]
    unfold extractLoop
    split_ifs with hl hc
    · have hd : (buf.drop (get_packet_len buf).1.toNat).length ≤ n := by
        simp only [List.length_drop]
        omega
      have hd2 : (buf.drop (get_packet_len buf).1.toNat).length ≤ m := by
        simp only [List.length_drop]
        omega
      rw [ih _ _ hd hd2]
    · rfl
    · rfl

/-- One unrolling of the extraction loop when a complete packet is
available. -/
lemma extractLoop_step (fuel : Nat) (buf : List Nat)
    (h : 0 < (get_packet_len buf).1 ∧ (get_packet_len buf).1 ≤ (buf.length : Int)) :
    extractLoop (fuel + 1) buf =
      ((buf.take (get_packet_len buf).1.toNat, (get_packet_len buf).2) ::
          (extractLoop fuel (buf.drop (get_packet_len buf).1.toNat)).1,
       (extractLoop fuel (buf.drop (get_packet_len buf).1.toNat)).2) := by
  have hl : 0 < buf.length := by
    rcases buf with _ | ⟨b, bs⟩
    · simp [get_packet_len_nil] at h
    · simp
  conv_lhs => rw [extractLoop]
  rw [if_pos hl, if_pos h]

/-- `extractPackets` restated as one unfolding step: when the resolver
reports a complete in-buffer packet, exactly its bytes are removed from
the front and the loop continues on the rest. -/
lemma extractPackets_step (buf : List Nat)
    (h : 0 < (get_packet_len buf).1 ∧ (get_packet_len buf).1 ≤ (buf.length : Int)) :
    extractPackets buf =
      ((buf.take (get_packet_len buf).1.toNat, (get_packet_len buf).2) ::
          (extractPackets (buf.drop (get_packet_len buf).1.toNat)).1,
       (extractPackets (buf.drop (get_packet_len buf).1.toNat)).2) := by
  have hl : 0 < buf.length := by
    rcases buf with _ | ⟨b, bs⟩
    · simp [get_packet_len_nil] at h
    · simp
  unfold extractPackets
  have h1 : buf.length = (buf.length - 1) + 1 := by omega
  rw [h1, extractLoop_step _ _ h,
    extractLoop_congr (buf.length - 1) (buf.drop (get_packet_len buf).1.toNat).length _
      (by simp only [List.length_drop]; omega) le_rfl]

lemma extractPackets_stuck (r : List Nat) (h : stuck r) :
    extractPackets r = ([], r) :=
  extractLoop_stuck _ _ h

/-! ## Claim C2: type/length table of the Frame Boundary Resolver -/

/--
C2.  Type-length correctness of the Frame Boundary Resolver: for every
buffer of byte values whose first byte is a known tag and whose length
reaches the minimum header size, `get_packet_len` returns total frame
length `4 + param_len` (byte at index 3) for Command (tag 0x01),
`5 +` the little-endian 16-bit value at indices 3..4 for ACL-Data
(tag 0x02), `4 +` the byte at index 3 for SCO-Data (tag 0x03), and
`3 +` the byte at index 2 for Event (tag 0x04).
-/
theorem c2_type_length (buf : List Nat) (hb : ∀ b ∈ buf, b < 256) :
    (buf.getD 0 0 = 0x01 → 4 ≤ buf.length →
      (get_packet_len buf).1 = ((4 + buf.getD 3 0 : Nat) : Int)) ∧
    (buf.getD 0 0 = 0x02 → 5 ≤ buf.length →
      (get_packet_len buf).1 = ((5 + (buf.getD 3 0 + 256 * buf.getD 4 0) : Nat) : Int)) ∧
    (buf.getD 0 0 = 0x03 → 4 ≤ buf.length →
      (get_packet_len buf).1 = ((4 + buf.getD 3 0 : Nat) : Int)) ∧
    (buf.getD 0 0 = 0x04 → 3 ≤ buf.length →
      (get_packet_len buf).1 = ((3 + buf.getD 2 0 : Nat) : Int)) := by
  refine ⟨?_, ?_, ?_, ?_⟩ <;> intro h0 hlen <;>
    unfold get_packet_len <;>
    simp only [h0, HCI_COMMAND_PKT, HCI_ACLDATA_PKT, HCI_SCODATA_PKT,
      HCI_EVENT_PKT, HCI_VENDOR_PKT]
  · split_ifs <;> first | rfl | omega
  · have h3 : buf.getD 3 0 < 256 := by
      have h3l : (3 : Nat) < buf.length := by omega
      have he : buf.getD 3 0 = buf[3] := by
        simp [List.getD_eq_getElem?_getD, List.getElem?_eq_getElem h3l]
      rw [he]
      exact hb _ (List.getElem_mem h3l)
    split_ifs <;> first | rfl | omega | rw [lor_shiftLeft_eq_add _ _ h3]
  · split_ifs <;> first | rfl | omega
  · split_ifs <;> first | rfl | omega

/-- Witness for C2: a concrete header of each shape, e.g. the ACL-Data
buffer `02 00 00 03 01` resolves to `5 + (3 + 256·1) = 264`. -/
theorem c2_witness :
    (get_packet_len [0x02, 0x00, 0x00, 0x03, 0x01]).1 =
      ((5 + (3 + 256 * 1) : Nat) : Int) :=
  (c2_type_length [0x02, 0x00, 0x00, 0x03, 0x01] (by decide)).2.1 rfl (by norm_num)

/-! ## Claim C10: the lone 0xff byte is retained, not emitted -/

/--
C10.  Vendor/Internal minimum-length edge case: on the buffer holding
only the tag byte 0xff the resolver asks for more bytes (returning 0,
with the internal flag set), so the extraction loop retains the byte for
the next feed instead of emitting a one-byte frame; once at least two
bytes are buffered, a 0xff-tagged buffer resolves to the whole buffered
length.
-/
theorem c10_vendor_min_length :
    get_packet_len [0xff] = (0, true) ∧
    extractPackets [0xff] = ([], [0xff]) ∧
    (∀ buf : List Nat, buf.getD 0 0 = 0xff → 2 ≤ buf.length →
      get_packet_len buf = ((buf.length : Int), true)) := by
  refine ⟨by decide, by decide, ?_⟩
  intro buf h0 hlen
  unfold get_packet_len
  simp only [h0, HCI_COMMAND_PKT, HCI_ACLDATA_PKT, HCI_SCODATA_PKT,
    HCI_EVENT_PKT, HCI_VENDOR_PKT]
  split_ifs <;> first | rfl | omega

/-- Witness for C10: the two-byte vendor packet `ff 07` resolves to
length 2 with the internal flag set. -/
theorem c10_witness : get_packet_len [0xff, 0x07] = ((2 : Int), true) := by
  simpa using c10_vendor_min_length.2.2 [0xff, 0x07] rfl (by norm_num)

/-! ## Loop-level helper lemmas -/

/-- The packet loop never grows the accumulator. -/
lemma procLoop_buf_le : ∀ (fuel : Nat) (buf : List Nat) (d : Bool) (ws : List Nat),
    (procLoop fuel buf d ws).buf.length ≤ buf.length := by
  intro fuel
  induction fuel with
  | zero => intro buf d ws; exact le_rfl
  | succ n ih =>
    intro buf d ws
    rw [procLoop]
    split_ifs <;>
      first
        | exact le_rfl
        | exact Nat.le_trans (ih _ _ _) (by simp only [List.length_drop]; omega)

/-- On a buffer where no complete packet is available and the type is
not invalid, the packet loop does nothing. -/
lemma procLoop_stuck (fuel : Nat) (buf : List Nat) (d : Bool) (ws : List Nat)
    (h : stuck buf) (h2 : ¬((get_packet_len buf).1 < 0)) :
    procLoop fuel buf d ws = ⟨[], [], buf, ws⟩ := by
  cases fuel with
  | zero => rfl
  | succ n =>
    rw [procLoop]
    by_cases ha : 0 < buf.length
    · rw [if_pos ha, if_neg h2, if_neg h]
    · rw [if_neg ha]

/-- The loop body never touches the `running` flag (only the signal
handler clears it). -/
lemma loopIter_running (st : BridgeState) (ev : SelectRes) (ws : List Nat) :
    (loopIter st ev ws).st.running = st.running := by
  rcases ev with isEINTR | _ | ⟨vr, sr⟩
  · cases isEINTR <;> rfl
  · rfl
  · rfl

/-! ## Claim C4: invalid frame type -/

/--
C4 (amended).  When the resolver reports Invalid (a tag byte outside
0x01-0x04, 0xff), the error is logged (`Unknown packet type`) and the
extraction loop stops for that stream: the Reassembler emits no further
frames even if fed more bytes.  However, the bridge loop keeps running:
no loop iteration ever changes the `running` flag, so no
Running-to-ShuttingDown transition happens.
-/
theorem c4_invalid_type_logged_not_fatal (buf : List Nat) (t : Nat)
    (h0 : buf.getD 0 0 = t) (hl : 0 < buf.length)
    (hbad : t ∉ [HCI_COMMAND_PKT, HCI_ACLDATA_PKT, HCI_SCODATA_PKT,
      HCI_EVENT_PKT, HCI_VENDOR_PKT]) :
    (∀ more : List Nat, extractPackets (buf ++ more) = ([], buf ++ more)) ∧
    (∀ fuel dropInternal ws, procLoop (fuel + 1) buf dropInternal ws =
      ⟨[], [LogEv.unknownType t], buf, ws⟩) ∧
    (∀ st ev ws, (loopIter st ev ws).st.running = st.running) := by
  simp only [List.mem_cons, List.mem_singleton, not_or] at hbad
  obtain ⟨hb1, hb2, hb3, hb4, hb5, -⟩ := hbad
  have hg : get_packet_len buf = (-1, false) := by
    apply get_packet_len_invalid buf hl <;> rw [h0] <;> assumption
  refine ⟨?_, ?_, fun st ev ws => loopIter_running st ev ws⟩
  · intro more
    have hg2 : get_packet_len (buf ++ more) = (-1, false) := by
      apply get_packet_len_invalid (buf ++ more) (by simp; omega) <;>
        rw [getD_append_left hl, h0] <;> assumption
    apply extractPackets_stuck
    unfold stuck
    rw [hg2]
    simp
  · intro fuel dropInternal ws
    conv_lhs => rw [procLoop]
    rw [if_pos hl, hg, h0]
    norm_num

/-- Counterexample for C4 as stated: one iteration reads the single
invalid byte 0x05; the unknown-type error is logged, yet the resulting
state is still Running and the loop did not break. -/
theorem c4_counterexample :
    runLoop [(SelectRes.ready (some (ReadRes.avail [0x05])) none, [])]
        ⟨true, [], []⟩ =
      ⟨⟨true, [0x05], []⟩, false, [], [], [LogEv.unknownType 5]⟩ := by
  decide

/-- Witness for C4 (amended). -/
theorem c4_witness :
    extractPackets ([0x05] ++ [1, 2]) = ([], [0x05] ++ [1, 2]) ∧
    procLoop 1 [0x05] true [] = ⟨[], [LogEv.unknownType 5], [0x05], []⟩ ∧
    (loopIter ⟨true, [], []⟩ SelectRes.timeout []).st.running = true := by
  have h := c4_invalid_type_logged_not_fatal [0x05] 5 rfl (by norm_num) (by decide)
  exact ⟨h.1 [1, 2], h.2.1 0 true [], h.2.2 ⟨true, [], []⟩ SelectRes.timeout []⟩

/-! ## Claim C5: buffer capacity handling -/

/--
C5 (amended).  The read is clamped to the remaining capacity
(`read(fd, buf + len, BUF_SIZE - len)`), so the accumulator can never
exceed `BUF_SIZE`; there is no Buffer-Overflow condition in the
program at all.  At full capacity a readable event reads zero bytes and
is silently ignored: nothing is reported and the loop keeps running.
-/
theorem c5_capacity_clamped (buf data : List Nat) (d : Bool) (ws : List Nat)
    (h : buf.length ≤ BUF_SIZE) :
    (handleReadable buf (ReadRes.avail data) d ws).buf.length ≤ BUF_SIZE ∧
    (buf.length = BUF_SIZE →
      handleReadable buf (ReadRes.avail data) d ws = ⟨buf, [], [], ws⟩) := by
  constructor
  · simp only [handleReadable]
    split_ifs with h1 <;> dsimp only
    · refine Nat.le_trans (procLoop_buf_le _ _ d ws) ?_
      have h3 : (data.take (BUF_SIZE - buf.length)).length ≤ BUF_SIZE - buf.length :=
        List.length_take_le _ _
      simp only [List.length_append]
      omega
    · exact h
  · intro hfull
    simp only [handleReadable]
    rw [hfull, Nat.sub_self, List.take_zero]
    rfl

/-- Counterexample for C5 as stated: 4096 bytes of a never-completing
ACL frame (declared data length 0xffff) fill the accumulator exactly to
capacity with no overflow report; a further readable event with one more
byte pending reads zero bytes, reports nothing, and the bridge remains
Running — no Buffer-Overflow condition exists. -/
theorem c5_counterexample :
    handleReadable [] (ReadRes.avail ([2, 0, 0, 255, 255] ++ List.replicate 4091 0))
        true [] =
      ⟨[2, 0, 0, 255, 255] ++ List.replicate 4091 0, [], [], []⟩ ∧
    handleReadable ([2, 0, 0, 255, 255] ++ List.replicate 4091 0)
        (ReadRes.avail [0x42]) true [] =
      ⟨[2, 0, 0, 255, 255] ++ List.replicate 4091 0, [], [], []⟩ ∧
    (loopIter ⟨true, [2, 0, 0, 255, 255] ++ List.replicate 4091 0, []⟩
        (SelectRes.ready (some (ReadRes.avail [0x42])) none) []).st.running = true := by
  have hlen : ([2, 0, 0, 255, 255] ++ List.replicate 4091 0).length = 4096 := by
    rw [List.length_append, List.length_replicate]
    rfl
  have hbits : (255 ||| 255 <<< 8 : Nat) = 65535 := by decide
  have hg : get_packet_len ([2, 0, 0, 255, 255] ++ List.replicate 4091 0) =
      ((65540 : Int), false) := by
    have h0 : ([2, 0, 0, 255, 255] ++ List.replicate 4091 0).getD 0 0 = 2 := rfl
    have h3 : ([2, 0, 0, 255, 255] ++ List.replicate 4091 0).getD 3 0 = 255 := rfl
    have h4 : ([2, 0, 0, 255, 255] ++ List.replicate 4091 0).getD 4 0 = 255 := rfl
    unfold get_packet_len
    rw [hlen, h0, h3, h4, hbits]
    norm_num [HCI_COMMAND_PKT, HCI_ACLDATA_PKT]
  have hstuck : stuck ([2, 0, 0, 255, 255] ++ List.replicate 4091 0) := by
    unfold stuck
    rw [hg, hlen]
    norm_num
  have hnn : ¬((get_packet_len ([2, 0, 0, 255, 255] ++ List.replicate 4091 0)).1 < 0) := by
    rw [hg]
    norm_num
  refine ⟨?_, ?_, ?_⟩
  · simp only [handleReadable]
    have htake : ([2, 0, 0, 255, 255] ++ List.replicate 4091 0).take
        (BUF_SIZE - ([] : List Nat).length) = [2, 0, 0, 255, 255] ++ List.replicate 4091 0 :=
      List.take_of_length_le (by rw [hlen]; exact le_rfl)
    rw [htake, List.nil_append, if_pos (by rw [hlen]; norm_num),
      procLoop_stuck _ _ _ _ hstuck hnn]
  · simp only [handleReadable]
    have hsub : BUF_SIZE - ([2, 0, 0, 255, 255] ++ List.replicate 4091 0).length = 0 := by
      rw [hlen]
      rfl
    rw [hsub, List.take_zero]
    rfl
  · exact loopIter_running _ _ _

/-- Witness for C5 (amended). -/
theorem c5_witness :
    (handleReadable [0x04, 0x0e] (ReadRes.avail [0x01, 0x09]) false []).buf.length ≤
      BUF_SIZE ∧
    handleReadable (List.replicate 4096 0x04) (ReadRes.avail [0x0e]) false [] =
      ⟨List.replicate 4096 0x04, [], [], []⟩ := by
  have h1 := c5_capacity_clamped [0x04, 0x0e] [0x01, 0x09] false [] (by norm_num [BUF_SIZE])
  have h2 := c5_capacity_clamped (List.replicate 4096 0x04) [0x0e] false []
    (by rw [List.length_replicate]; exact le_rfl)
  exact ⟨h1.1, h2.2 (by rw [List.length_replicate]; rfl)⟩

/-! ## Claim C7: read-error handling -/

/--
C7 (amended).  A read indicating would-block is an empty feed: a no-op,
not an error, and the loop continues.  Any other read error is logged
(`perror("read from ...")`) — but it is not fatal either: the buffer is
untouched, no state transition happens, and the loop only ever exits on
a non-EINTR `select` error or on cancellation.
-/
theorem c7_read_error_handling (buf : List Nat) (d : Bool) (ws : List Nat) :
    handleReadable buf ReadRes.eagain d ws = ⟨buf, [], [], ws⟩ ∧
    handleReadable buf ReadRes.fail d ws = ⟨buf, [], [LogEv.readErr], ws⟩ ∧
    (∀ st ev w, (loopIter st ev w).st.running = st.running ∧
      ((loopIter st ev w).exited = true ↔ ev = SelectRes.err false)) := by
  refine ⟨rfl, rfl, fun st ev w => ⟨loopIter_running st ev w, ?_⟩⟩
  rcases ev with isEINTR | _ | ⟨vr, sr⟩
  · cases isEINTR <;> simp [loopIter]
  · simp [loopIter]
  · simp [loopIter]

/-- Counterexample for C7 as stated: a fatal read error is logged but
the bridge does not transition out of Running. -/
theorem c7_counterexample :
    runLoop [(SelectRes.ready (some ReadRes.fail) none, [])] ⟨true, [], []⟩ =
      ⟨⟨true, [], []⟩, false, [], [], [LogEv.readErr]⟩ := by
  decide

/-- Witness for C7 (amended). -/
theorem c7_witness :
    handleReadable [0xff] ReadRes.eagain true [] = ⟨[0xff], [], [], []⟩ ∧
    handleReadable [] ReadRes.fail false [] = ⟨[], [], [LogEv.readErr], []⟩ := by
  have h1 := c7_read_error_handling [0xff] true []
  have h2 := c7_read_error_handling [] false []
  exact ⟨h1.1, h2.2.1⟩

/-! ## Claim C8: exit status -/

/--
C8 (amended).  The exit status is zero exactly when both endpoints
opened and the non-blocking setup succeeded — i.e. when the bridge loop
was entered at all.  However the loop exits (cancellation, or the
`select`-error break), execution falls through to `ret = 0`, so a fatal
I/O termination of the loop still exits with status zero; only setup
failures exit non-zero.
-/
theorem c8_exit_status (a b c : Bool) (evs : List (SelectRes × List Nat)) :
    (mainRun a b c evs).1 = (if a && b && c then 0 else 1) ∧
    ((mainRun a b c evs).1 = 0 ↔ a = true ∧ b = true ∧ c = true) := by
  rcases a <;> rcases b <;> rcases c <;> simp [mainRun]

/-- Counterexample for C8 as stated: with both endpoints open, a fatal
`select` error terminates the loop (`brokeOnError = true`, the error is
logged), yet the process exits with status 0, not non-zero. -/
theorem c8_counterexample :
    mainRun true true true [(SelectRes.err false, [])] =
      (0, some ⟨⟨true, [], []⟩, true, [], [], [LogEv.selectErr]⟩) := by
  decide

/-! ## Relating the effectful packet loop to the pure extraction loop -/

/-- The packet loop writes exactly the extracted packets that survive
the drop filter (on the vhci side, `dropInternal` removes the flagged
ones), in extraction order, and leaves the same compacted buffer. -/
lemma procLoop_writes_extract : ∀ (fuel : Nat) (buf : List Nat) (d : Bool) (ws : List Nat),
    (procLoop fuel buf d ws).writes =
      ((extractLoop fuel buf).1.filter (fun p => !(d && p.2))).map Prod.fst ∧
    (procLoop fuel buf d ws).buf = (extractLoop fuel buf).2 := by
  intro fuel
  induction fuel with
  | zero => intro buf d ws; exact ⟨rfl, rfl⟩
  | succ n ih =>
    intro buf d ws
    rw [procLoop, extractLoop]
    by_cases h1 : 0 < buf.length
    · rw [if_pos h1, if_pos h1]
      by_cases h2 : (get_packet_len buf).1 < 0
      · rw [if_pos h2, if_neg (by omega)]
        exact ⟨rfl, rfl⟩
      · rw [if_neg h2]
        by_cases h3 : 0 < (get_packet_len buf).1 ∧
            (get_packet_len buf).1 ≤ (buf.length : Int)
        · rw [if_pos h3, if_pos h3]
          by_cases h4 : (d && (get_packet_len buf).2) = true
          · rw [if_pos h4]
            refine ⟨?_, (ih _ d ws).2⟩
            rw [(ih _ d ws).1, List.filter_cons]
            have hd : d = true ∧ (get_packet_len buf).2 = true := by simpa using h4
            rw [if_neg (by simp [hd.1, hd.2])]
          · rw [if_neg h4]
            refine ⟨?_, ?_⟩
            · show _ :: (procLoop n _ d ws.tail).writes = _
              have h5 : d = false ∨ (get_packet_len buf).2 = false := by
                have h6 : d = true → (get_packet_len buf).2 = false := by simpa using h4
                rcases Bool.eq_false_or_eq_true d with hd | hd
                · exact Or.inr (h6 hd)
                · exact Or.inl hd
              rw [(ih _ d ws.tail).1, List.filter_cons,
                if_pos (by simpa using h5), List.map_cons]
            · show (procLoop n _ d ws.tail).buf = _
              rw [(ih _ d ws.tail).2]
        · rw [if_neg h3, if_neg h3]
          exact ⟨rfl, rfl⟩
    · rw [if_neg h1, if_neg h1]
      exact ⟨rfl, rfl⟩

/-- Every packet emitted by the extraction loop is non-empty and its
internal flag holds exactly when its first byte is the vendor tag. -/
lemma extractLoop_flag : ∀ (fuel : Nat) (buf : List Nat),
    ∀ p ∈ (extractLoop fuel buf).1,
      p.1 ≠ [] ∧ (p.2 = true ↔ p.1.getD 0 0 = HCI_VENDOR_PKT) := by
  intro fuel
  induction fuel with
  | zero => intro buf p hp; simp [extractLoop] at hp
  | succ n ih =>
    intro buf p hp
    rw [extractLoop] at hp
    by_cases h1 : 0 < buf.length
    · rw [if_pos h1] at hp
      by_cases h3 : 0 < (get_packet_len buf).1 ∧
          (get_packet_len buf).1 ≤ (buf.length : Int)
      · rw [if_pos h3] at hp
        rcases List.mem_cons.mp hp with hph | hpt
        · subst hph
          have hn : 0 < (get_packet_len buf).1.toNat := by omega
          constructor
          · show buf.take (get_packet_len buf).1.toNat ≠ []
            intro hcon
            have hlen0 := congrArg List.length hcon
            rw [List.length_take, List.length_nil] at hlen0
            rcases Nat.min_eq_zero_iff.mp hlen0 with hz | hz <;> omega
          · show (get_packet_len buf).2 = true ↔
              (buf.take (get_packet_len buf).1.toNat).getD 0 0 = HCI_VENDOR_PKT
            rw [get_packet_len_internal_iff buf h1, getD_take_of_lt hn]
        · exact ih _ p hpt
      · rw [if_neg h3] at hp
        simp at hp
    · rw [if_neg h1] at hp
      simp at hp

/-! ## Claim C3: forwarding policy -/

/--
C3.  Forwarding policy: a Vendor/Internal frame (first byte 0xff)
extracted in the virtual-to-hardware direction is discarded — its bytes
never appear among the writes to the hardware endpoint — while in the
hardware-to-virtual direction every extracted frame, vendor frames with
the identical byte pattern included, is written verbatim and in order to
the virtual-HCI endpoint.
-/
theorem c3_forwarding_policy (buf ws : List Nat) (f : List Nat) (b : Bool) :
    ((f, b) ∈ (extractPackets buf).1 → f.getD 0 0 = HCI_VENDOR_PKT →
      f ∉ (procLoop buf.length buf true ws).writes) ∧
    (procLoop buf.length buf false ws).writes = (extractPackets buf).1.map Prod.fst := by
  constructor
  · intro _ hvend hmem
    rw [(procLoop_writes_extract buf.length buf true ws).1] at hmem
    rcases List.mem_map.mp hmem with ⟨q, hq, hqf⟩
    rcases List.mem_filter.mp hq with ⟨hqe, hqkeep⟩
    have hflag := (extractLoop_flag buf.length buf q hqe).2
    have : q.2 = true := hflag.mpr (by rw [hqf]; exact hvend)
    simp [this] at hqkeep
  · rw [(procLoop_writes_extract buf.length buf false ws).1]
    simp [extractPackets]

/-- Witness for C3: the vendor packet `ff 01 02` is dropped on the
virtual-to-hardware side and forwarded verbatim on the
hardware-to-virtual side. -/
theorem c3_witness :
    [0xff, 0x01, 0x02] ∉ (procLoop [0xff, 0x01, 0x02].length [0xff, 0x01, 0x02] true []).writes ∧
    (procLoop [0xff, 0x01, 0x02].length [0xff, 0x01, 0x02] false []).writes =
      [[0xff, 0x01, 0x02]] := by
  have h := c3_forwarding_policy [0xff, 0x01, 0x02] [] [0xff, 0x01, 0x02] true
  refine ⟨h.1 (by decide) rfl, ?_⟩
  rw [h.2]
  decide

/-! ## Claim C6: short writes -/

/--
C6 (amended).  A forward-write returning fewer bytes than the frame
length is logged (`perror("write to ...")` — modelled as `shortWrite`),
but it is not fatal: the frame is not retried, the loop moves on to the
remaining buffered packets exactly as on a successful write, and no
iteration changes the `running` flag.
-/
theorem c6_short_write_logged_continues (buf : List Nat) (d : Bool) (w : Nat)
    (ws : List Nat) (fuel : Nat)
    (h : 0 < (get_packet_len buf).1 ∧ (get_packet_len buf).1 ≤ (buf.length : Int))
    (hnd : ¬(d && (get_packet_len buf).2) = true)
    (hshort : w ≠ (get_packet_len buf).1.toNat) :
    procLoop (fuel + 1) buf d (w :: ws) =
      ⟨buf.take (get_packet_len buf).1.toNat ::
          (procLoop fuel (buf.drop (get_packet_len buf).1.toNat) d ws).writes,
        LogEv.shortWrite ::
          (procLoop fuel (buf.drop (get_packet_len buf).1.toNat) d ws).logs,
        (procLoop fuel (buf.drop (get_packet_len buf).1.toNat) d ws).buf,
        (procLoop fuel (buf.drop (get_packet_len buf).1.toNat) d ws).wres⟩ ∧
    (∀ st ev ws2, (loopIter st ev ws2).st.running = st.running) := by
  refine ⟨?_, fun st ev ws2 => loopIter_running st ev ws2⟩
  have hl : 0 < buf.length := by
    rcases buf with _ | ⟨x, xs⟩
    · simp [get_packet_len_nil] at h
    · simp
  rw [procLoop, if_pos hl, if_neg (by omega), if_pos h, if_neg hnd]
  have hhead : (w :: ws).headD (get_packet_len buf).1.toNat = w := rfl
  have htail : (w :: ws).tail = ws := rfl
  rw [hhead, htail, if_pos hshort]
  rfl

/-- Counterexample for C6 as stated: a short write (2 of 4 bytes of a
Command frame) is logged, but the bridge does not stop: the following
Event frame in the same buffer is still extracted and forwarded, and
the state remains Running. -/
theorem c6_counterexample :
    runLoop [(SelectRes.ready (some (ReadRes.avail [1, 0, 0, 0, 4, 14, 0])) none, [2])]
        ⟨true, [], []⟩ =
      ⟨⟨true, [], []⟩, false, [[1, 0, 0, 0], [4, 14, 0]], [], [LogEv.shortWrite]⟩ := by
  decide

/-- Witness for C6 (amended). -/
theorem c6_witness :
    procLoop (6 + 1) [1, 0, 0, 0, 4, 14, 0] true (2 :: []) =
      ⟨[1, 0, 0, 0, 4, 14, 0].take
          (get_packet_len [1, 0, 0, 0, 4, 14, 0]).1.toNat ::
          (procLoop 6 ([1, 0, 0, 0, 4, 14, 0].drop
            (get_packet_len [1, 0, 0, 0, 4, 14, 0]).1.toNat) true []).writes,
        LogEv.shortWrite ::
          (procLoop 6 ([1, 0, 0, 0, 4, 14, 0].drop
            (get_packet_len [1, 0, 0, 0, 4, 14, 0]).1.toNat) true []).logs,
        (procLoop 6 ([1, 0, 0, 0, 4, 14, 0].drop
          (get_packet_len [1, 0, 0, 0, 4, 14, 0]).1.toNat) true []).buf,
        (procLoop 6 ([1, 0, 0, 0, 4, 14, 0].drop
          (get_packet_len [1, 0, 0, 0, 4, 14, 0]).1.toNat) true []).wres⟩ :=
  (c6_short_write_logged_continues [1, 0, 0, 0, 4, 14, 0] true 2 [] 6
    (by decide) (by decide) (by decide)).1

/-! ## Claim C9: accumulator invariant and compaction -/

/-- The extraction loop only ever shrinks the buffer. -/
lemma extractLoop_buf_le : ∀ (fuel : Nat) (buf : List Nat),
    (extractLoop fuel buf).2.length ≤ buf.length := by
  intro fuel
  induction fuel with
  | zero => intro buf; exact le_rfl
  | succ n ih =>
    intro buf
    rw [extractLoop]
    split_ifs <;>
      first
        | exact le_rfl
        | exact Nat.le_trans (ih _) (by simp only [List.length_drop]; omega)

/--
C9.  Accumulator invariant and compaction: the fill level never exceeds
the capacity `BUF_SIZE` after handling a read (the read is bounded by
the remaining space and extraction only shrinks the buffer); extraction
of a complete in-buffer frame removes exactly its `total_length` leading
bytes, the remaining bytes being processed (and finally kept) shifted to
the front; and the leftover after a full extraction pass is never longer
than the input.
-/
theorem c9_accumulator_invariant (buf : List Nat) (rr : ReadRes) (d : Bool)
    (ws : List Nat) (hcap : buf.length ≤ BUF_SIZE) :
    (handleReadable buf rr d ws).buf.length ≤ BUF_SIZE ∧
    (0 < (get_packet_len buf).1 → (get_packet_len buf).1 ≤ (buf.length : Int) →
      extractPackets buf =
        ((buf.take (get_packet_len buf).1.toNat, (get_packet_len buf).2) ::
            (extractPackets (buf.drop (get_packet_len buf).1.toNat)).1,
         (extractPackets (buf.drop (get_packet_len buf).1.toNat)).2)) ∧
    (extractPackets buf).2.length ≤ buf.length := by
  refine ⟨?_, fun h1 h2 => extractPackets_step buf ⟨h1, h2⟩, extractLoop_buf_le _ _⟩
  rcases rr with data | _ | _
  · simp only [handleReadable]
    split_ifs with h1 <;> dsimp only
    · refine Nat.le_trans (procLoop_buf_le _ _ d ws) ?_
      have h3 : (data.take (BUF_SIZE - buf.length)).length ≤ BUF_SIZE - buf.length :=
        List.length_take_le _ _
      simp only [List.length_append]
      omega
    · exact hcap
  · exact hcap
  · exact hcap

/-- Witness for C9: handling a two-byte read on a partially filled
accumulator stays within capacity, and extracting the leading 4-byte
Event frame from a 5-byte buffer keeps exactly the trailing byte. -/
theorem c9_witness :
    (handleReadable [0x04, 0x0e] (ReadRes.avail [0x01, 0x09]) true []).buf.length ≤
      BUF_SIZE ∧
    extractPackets [0x04, 0x0e, 0x01, 0x09, 0x02] =
      (([0x04, 0x0e, 0x01, 0x09, 0x02].take
          (get_packet_len [0x04, 0x0e, 0x01, 0x09, 0x02]).1.toNat,
        (get_packet_len [0x04, 0x0e, 0x01, 0x09, 0x02]).2) ::
          (extractPackets ([0x04, 0x0e, 0x01, 0x09, 0x02].drop
            (get_packet_len [0x04, 0x0e, 0x01, 0x09, 0x02]).1.toNat)).1,
       (extractPackets ([0x04, 0x0e, 0x01, 0x09, 0x02].drop
         (get_packet_len [0x04, 0x0e, 0x01, 0x09, 0x02]).1.toNat)).2) := by
  have h1 := c9_accumulator_invariant [0x04, 0x0e] (ReadRes.avail [0x01, 0x09]) true []
    (by norm_num [BUF_SIZE])
  have h2 := c9_accumulator_invariant [0x04, 0x0e, 0x01, 0x09, 0x02] ReadRes.eagain
    true [] (by norm_num [BUF_SIZE])
  exact ⟨h1.1, h2.2.1 (by decide) (by decide)⟩

/-! ## Per-tag shapes of `get_packet_len`, toward chunk independence -/

lemma get_packet_len_command (buf : List Nat) (h0 : buf.getD 0 0 = HCI_COMMAND_PKT)
    (h1 : 0 < buf.length) :
    get_packet_len buf =
      if buf.length < 4 then ((0 : Int), false)
      else (((4 + buf.getD 3 0 : Nat) : Int), false) := by
  unfold get_packet_len
  simp only [h0, HCI_COMMAND_PKT, HCI_ACLDATA_PKT, HCI_SCODATA_PKT,
    HCI_EVENT_PKT, HCI_VENDOR_PKT]
  split_ifs <;> first | rfl | omega

lemma get_packet_len_acl (buf : List Nat) (h0 : buf.getD 0 0 = HCI_ACLDATA_PKT)
    (h1 : 0 < buf.length) :
    get_packet_len buf =
      if buf.length < 5 then ((0 : Int), false)
      else (((5 + (buf.getD 3 0 ||| (buf.getD 4 0 <<< 8)) : Nat) : Int), false) := by
  unfold get_packet_len
  simp only [h0, HCI_COMMAND_PKT, HCI_ACLDATA_PKT, HCI_SCODATA_PKT,
    HCI_EVENT_PKT, HCI_VENDOR_PKT]
  split_ifs <;> first | rfl | omega

lemma get_packet_len_sco (buf : List Nat) (h0 : buf.getD 0 0 = HCI_SCODATA_PKT)
    (h1 : 0 < buf.length) :
    get_packet_len buf =
      if buf.length < 4 then ((0 : Int), false)
      else (((4 + buf.getD 3 0 : Nat) : Int), false) := by
  unfold get_packet_len
  simp only [h0, HCI_COMMAND_PKT, HCI_ACLDATA_PKT, HCI_SCODATA_PKT,
    HCI_EVENT_PKT, HCI_VENDOR_PKT]
  split_ifs <;> first | rfl | omega

lemma get_packet_len_event (buf : List Nat) (h0 : buf.getD 0 0 = HCI_EVENT_PKT)
    (h1 : 0 < buf.length) :
    get_packet_len buf =
      if buf.length < 3 then ((0 : Int), false)
      else (((3 + buf.getD 2 0 : Nat) : Int), false) := by
  unfold get_packet_len
  simp only [h0, HCI_COMMAND_PKT, HCI_ACLDATA_PKT, HCI_SCODATA_PKT,
    HCI_EVENT_PKT, HCI_VENDOR_PKT]
  split_ifs <;> first | rfl | omega

/-- A well-formed Command frame is at least 4 bytes and its length is
determined by the byte at index 3. -/
lemma wfPacket_command_shape (f : List Nat) (h : f.getD 0 0 = HCI_COMMAND_PKT)
    (h0 : 0 < f.length) (hlen : (get_packet_len f).1 = (f.length : Int)) :
    4 ≤ f.length ∧ f.length = 4 + f.getD 3 0 := by
  rw [get_packet_len_command f h h0] at hlen
  by_cases hlt : f.length < 4
  · rw [if_pos hlt] at hlen
    have hz : (0 : Int) = (f.length : Int) := hlen
    omega
  · rw [if_neg hlt] at hlen
    have hz : ((4 + f.getD 3 0 : Nat) : Int) = (f.length : Int) := hlen
    exact ⟨by omega, by exact_mod_cast hz.symm⟩

/-- A well-formed ACL-Data frame is at least 5 bytes and its length is
determined by the little-endian pair at indices 3..4. -/
lemma wfPacket_acl_shape (f : List Nat) (h : f.getD 0 0 = HCI_ACLDATA_PKT)
    (h0 : 0 < f.length) (hlen : (get_packet_len f).1 = (f.length : Int)) :
    5 ≤ f.length ∧ f.length = 5 + (f.getD 3 0 ||| (f.getD 4 0 <<< 8)) := by
  rw [get_packet_len_acl f h h0] at hlen
  by_cases hlt : f.length < 5
  · rw [if_pos hlt] at hlen
    have hz : (0 : Int) = (f.length : Int) := hlen
    omega
  · rw [if_neg hlt] at hlen
    have hz : ((5 + (f.getD 3 0 ||| (f.getD 4 0 <<< 8)) : Nat) : Int) = (f.length : Int) :=
      hlen
    exact ⟨by omega, by exact_mod_cast hz.symm⟩

/-- A well-formed SCO-Data frame is at least 4 bytes and its length is
determined by the byte at index 3. -/
lemma wfPacket_sco_shape (f : List Nat) (h : f.getD 0 0 = HCI_SCODATA_PKT)
    (h0 : 0 < f.length) (hlen : (get_packet_len f).1 = (f.length : Int)) :
    4 ≤ f.length ∧ f.length = 4 + f.getD 3 0 := by
  rw [get_packet_len_sco f h h0] at hlen
  by_cases hlt : f.length < 4
  · rw [if_pos hlt] at hlen
    have hz : (0 : Int) = (f.length : Int) := hlen
    omega
  · rw [if_neg hlt] at hlen
    have hz : ((4 + f.getD 3 0 : Nat) : Int) = (f.length : Int) := hlen
    exact ⟨by omega, by exact_mod_cast hz.symm⟩

/-- A well-formed Event frame is at least 3 bytes and its length is
determined by the byte at index 2. -/
lemma wfPacket_event_shape (f : List Nat) (h : f.getD 0 0 = HCI_EVENT_PKT)
    (h0 : 0 < f.length) (hlen : (get_packet_len f).1 = (f.length : Int)) :
    3 ≤ f.length ∧ f.length = 3 + f.getD 2 0 := by
  rw [get_packet_len_event f h h0] at hlen
  by_cases hlt : f.length < 3
  · rw [if_pos hlt] at hlen
    have hz : (0 : Int) = (f.length : Int) := hlen
    omega
  · rw [if_neg hlt] at hlen
    have hz : ((3 + f.getD 2 0 : Nat) : Int) = (f.length : Int) := hlen
    exact ⟨by omega, by exact_mod_cast hz.symm⟩

/-- Boundary stability: appending more bytes after a complete
length-prefixed frame does not change the resolved boundary — the
resolver still reports exactly the frame's length (and a clear internal
flag). -/
lemma wfPacket_extend (f : List Nat) (hf : wfPacket f) (t : List Nat) :
    get_packet_len (f ++ t) = ((f.length : Int), false) := by
  obtain ⟨hne, htag, hlen⟩ := hf
  have h0 : 0 < f.length := List.length_pos.mpr hne
  have h0t : 0 < (f ++ t).length := by simp only [List.length_append]; omega
  have hgd : (f ++ t).getD 0 0 = f.getD 0 0 := getD_append_left h0 0
  simp only [List.mem_cons, List.not_mem_nil, or_false] at htag
  rcases htag with h | h | h | h
  · obtain ⟨hge, heqn⟩ := wfPacket_command_shape f h h0 hlen
    rw [get_packet_len_command (f ++ t) (by rw [hgd, h]) h0t,
      if_neg (by simp only [List.length_append]; omega),
      getD_append_left (by omega : (3 : Nat) < f.length) 0, heqn]
  · obtain ⟨hge, heqn⟩ := wfPacket_acl_shape f h h0 hlen
    rw [get_packet_len_acl (f ++ t) (by rw [hgd, h]) h0t,
      if_neg (by simp only [List.length_append]; omega),
      getD_append_left (by omega : (3 : Nat) < f.length) 0,
      getD_append_left (by omega : (4 : Nat) < f.length) 0, heqn]
  · obtain ⟨hge, heqn⟩ := wfPacket_sco_shape f h h0 hlen
    rw [get_packet_len_sco (f ++ t) (by rw [hgd, h]) h0t,
      if_neg (by simp only [List.length_append]; omega),
      getD_append_left (by omega : (3 : Nat) < f.length) 0, heqn]
  · obtain ⟨hge, heqn⟩ := wfPacket_event_shape f h h0 hlen
    rw [get_packet_len_event (f ++ t) (by rw [hgd, h]) h0t,
      if_neg (by simp only [List.length_append]; omega),
      getD_append_left (by omega : (2 : Nat) < f.length) 0, heqn]

/-- A proper prefix of a well-formed length-prefixed frame makes no
progress in the extraction loop: either the header is still too short
(need-more-bytes) or the computed boundary lies beyond the buffered
bytes. -/
lemma wfPacket_prefix_stuck (f : List Nat) (hf : wfPacket f) (k : Nat)
    (hk : k < f.length) : stuck (f.take k) := by
  obtain ⟨hne, htag, hlen⟩ := hf
  have h0 : 0 < f.length := List.length_pos.mpr hne
  rcases Nat.eq_zero_or_pos k with hk0 | hk0
  · subst hk0
    rw [List.take_zero]
    unfold stuck
    rw [get_packet_len_nil]
    simp
  have htl : (f.take k).length = k := List.length_take_of_le (le_of_lt hk)
  have htl0 : 0 < (f.take k).length := by omega
  have hgd0 : (f.take k).getD 0 0 = f.getD 0 0 := getD_take_of_lt hk0 0
  simp only [List.mem_cons, List.not_mem_nil, or_false] at htag
  unfold stuck
  rcases htag with h | h | h | h
  · obtain ⟨hge, heqn⟩ := wfPacket_command_shape f h h0 hlen
    rw [get_packet_len_command (f.take k) (by rw [hgd0, h]) htl0]
    by_cases hklt : k < 4
    · rw [if_pos (by omega)]
      simp
    · rw [if_neg (by omega), getD_take_of_lt (by omega : (3 : Nat) < k) 0, htl]
      dsimp only
      rintro ⟨-, hc⟩
      omega
  · obtain ⟨hge, heqn⟩ := wfPacket_acl_shape f h h0 hlen
    rw [get_packet_len_acl (f.take k) (by rw [hgd0, h]) htl0]
    by_cases hklt : k < 5
    · rw [if_pos (by omega)]
      simp
    · rw [if_neg (by omega), getD_take_of_lt (by omega : (3 : Nat) < k) 0,
        getD_take_of_lt (by omega : (4 : Nat) < k) 0, htl]
      dsimp only
      rintro ⟨-, hc⟩
      omega
  · obtain ⟨hge, heqn⟩ := wfPacket_sco_shape f h h0 hlen
    rw [get_packet_len_sco (f.take k) (by rw [hgd0, h]) htl0]
    by_cases hklt : k < 4
    · rw [if_pos (by omega)]
      simp
    · rw [if_neg (by omega), getD_take_of_lt (by omega : (3 : Nat) < k) 0, htl]
      dsimp only
      rintro ⟨-, hc⟩
      omega
  · obtain ⟨hge, heqn⟩ := wfPacket_event_shape f h h0 hlen
    rw [get_packet_len_event (f.take k) (by rw [hgd0, h]) htl0]
    by_cases hklt : k < 3
    · rw [if_pos (by omega)]
      simp
    · rw [if_neg (by omega), getD_take_of_lt (by omega : (2 : Nat) < k) 0, htl]
      dsimp only
      rintro ⟨-, hc⟩
      omega

/-- Running the extraction loop on a concatenation of well-formed
length-prefixed frames followed by a stuck remainder emits exactly those
frames in order and leaves exactly the remainder. -/
lemma extractLoop_flatten : ∀ (gs : List (List Nat)) (r : List Nat) (fuel : Nat),
    (gs.flatten ++ r).length ≤ fuel → (∀ g ∈ gs, wfPacket g) → stuck r →
    extractLoop fuel (gs.flatten ++ r) = (gs.map (fun g => (g, false)), r) := by
  intro gs
  induction gs with
  | nil =>
    intro r fuel hfuel hwf hstuck
    rw [List.flatten_nil, List.nil_append, List.map_nil]
    exact extractLoop_stuck fuel r hstuck
  | cons g gs ih =>
    intro r fuel hfuel hwf hstuck
    have hg : wfPacket g := hwf g (List.mem_cons_self g gs)
    have hgs : ∀ x ∈ gs, wfPacket x := fun x hx => hwf x (List.mem_cons_of_mem g hx)
    have hg0 : 0 < g.length := List.length_pos.mpr hg.1
    have hbufeq : ((g :: gs).flatten ++ r) = g ++ (gs.flatten ++ r) := by
      rw [List.flatten_cons, List.append_assoc]
    have hgpl : get_packet_len (g ++ (gs.flatten ++ r)) = ((g.length : Int), false) :=
      wfPacket_extend g hg _
    rw [hbufeq] at hfuel ⊢
    rcases fuel with _ | m
    · exfalso
      simp only [List.length_append] at hfuel
      omega
    have hcond : 0 < (get_packet_len (g ++ (gs.flatten ++ r))).1 ∧
        (get_packet_len (g ++ (gs.flatten ++ r))).1 ≤ ((g ++ (gs.flatten ++ r)).length : Int) := by
      rw [hgpl]
      refine ⟨?_, ?_⟩
      · show (0 : Int) < (g.length : Int)
        exact_mod_cast hg0
      · show (g.length : Int) ≤ ((g ++ (gs.flatten ++ r)).length : Int)
        simp only [List.length_append]
        push_cast
        omega
    rw [extractLoop_step m _ hcond, hgpl]
    simp only [Int.toNat_ofNat, List.take_left, List.drop_left]
    rw [ih r m (by simp only [List.length_append] at hfuel ⊢; omega) hgs hstuck,
      List.map_cons]

/-- Any way of cutting a concatenation of well-formed frames splits it
into a run of complete frames followed by a proper prefix of the next
frame (or nothing). -/
lemma flatten_prefix_decomp : ∀ (gs : List (List Nat)) (q t : List Nat),
    (∀ g ∈ gs, wfPacket g) → q ++ t = gs.flatten →
    ∃ ks rest r, gs = ks ++ rest ∧ q = ks.flatten ++ r ∧ properRemainder r rest := by
  intro gs
  induction gs with
  | nil =>
    intro q t _ heq
    have hq : q = [] := (List.append_eq_nil.mp (by simpa using heq)).1
    exact ⟨[], [], [], rfl, by simp [hq], Or.inl rfl⟩
  | cons g gs ih =>
    intro q t hwf heq
    rw [List.flatten_cons] at heq
    by_cases hlt : q.length < g.length
    · refine ⟨[], g :: gs, q, rfl, by simp, Or.inr ⟨g, gs, rfl, hlt, ?_⟩⟩
      have h1 : (q ++ t).take q.length = q := List.take_left q t
      have h2 : (q ++ t).take q.length = g.take q.length := by
        rw [heq, List.take_append_of_le_length (le_of_lt hlt)]
      conv_lhs => rw [← h1]
      rw [h2]
    · push_neg at hlt
      have h1 : (q ++ t).take g.length = q.take g.length :=
        List.take_append_of_le_length hlt
      have h2 : (q ++ t).take g.length = g := by
        rw [heq, List.take_left]
      have hqg : q.take g.length = g := by rw [← h1, h2]
      have hq : q = g ++ q.drop g.length := by
        conv_lhs => rw [← List.take_append_drop g.length q]
        rw [hqg]
      have ht : q.drop g.length ++ t = gs.flatten := by
        rw [hq, List.append_assoc] at heq
        exact List.append_cancel_left heq
      obtain ⟨ks, rest, r, hgs, hq', hpr⟩ := ih (q.drop g.length) t
        (fun x hx => hwf x (List.mem_cons_of_mem g hx)) ht
      refine ⟨g :: ks, rest, r, by rw [List.cons_append, hgs], ?_, hpr⟩
      rw [hq, hq', List.flatten_cons, List.append_assoc]

/-- A reachable remainder state makes no extraction progress. -/
lemma properRemainder_stuck (r : List Nat) (gs : List (List Nat))
    (hwf : ∀ g ∈ gs, wfPacket g) (h : properRemainder r gs) : stuck r := by
  rcases h with hr | ⟨g, gs2, hgs, hlt, heqr⟩
  · subst hr
    unfold stuck
    rw [get_packet_len_nil]
    simp
  · have hg : wfPacket g := hwf g (hgs ▸ List.mem_cons_self g gs2)
    rw [heqr]
    exact wfPacket_prefix_stuck g hg r.length hlt

/-- Fold invariant behind chunk independence: from any reachable state
(`acc` already emitted, remainder `r`, frames `gs` still in transit),
feeding the rest of the input emits exactly the remaining frames. -/
lemma feedChunks_go : ∀ (chunks : List (List Nat)) (acc : List (List Nat × Bool))
    (r : List Nat) (gs : List (List Nat)),
    (∀ g ∈ gs, wfPacket g) → r ++ chunks.flatten = gs.flatten →
    properRemainder r gs →
    chunks.foldl (fun st c => let res := feed st.2 c; (st.1 ++ res.1, res.2)) (acc, r) =
      (acc ++ gs.map (fun g => (g, false)), []) := by
  intro chunks
  induction chunks with
  | nil =>
    intro acc r gs hwf heq hpr
    rw [List.foldl_nil]
    rw [List.flatten_nil, List.append_nil] at heq
    rcases hpr with hr | ⟨g, gs2, hgs, hlt, hpre⟩
    · subst hr
      have hall : ∀ g ∈ gs, g = [] := List.flatten_eq_nil_iff.mp heq.symm
      have hgs : gs = [] := by
        cases gs with
        | nil => rfl
        | cons g gs2 =>
          exact absurd (hall g (List.mem_cons_self _ _))
            (hwf g (List.mem_cons_self _ _)).1
      subst hgs
      simp
    · exfalso
      subst hgs
      rw [List.flatten_cons] at heq
      have := congrArg List.length heq
      simp only [List.length_append] at this
      omega
  | cons c chunks ih =>
    intro acc r gs hwf heq hpr
    rw [List.foldl_cons]
    have heq2 : (r ++ c) ++ chunks.flatten = gs.flatten := by
      rw [List.append_assoc, ← List.flatten_cons]
      exact heq
    obtain ⟨ks, rest, r', hgs, hq, hpr'⟩ :=
      flatten_prefix_decomp gs (r ++ c) chunks.flatten hwf heq2
    have hwfks : ∀ g ∈ ks, wfPacket g := fun g hg =>
      hwf g (hgs ▸ List.mem_append_left _ hg)
    have hwfrest : ∀ g ∈ rest, wfPacket g := fun g hg =>
      hwf g (hgs ▸ List.mem_append_right _ hg)
    have hstuck' : stuck r' := properRemainder_stuck r' rest hwfrest hpr'
    have hfeed : feed r c = (ks.map (fun g => (g, false)), r') := by
      unfold feed extractPackets
      rw [hq]
      exact extractLoop_flatten ks r' _ le_rfl hwfks hstuck'
    have hrest : r' ++ chunks.flatten = rest.flatten := by
      have hx : ks.flatten ++ (r' ++ chunks.flatten) = ks.flatten ++ rest.flatten := by
        rw [← List.append_assoc, ← hq, heq2, hgs, List.flatten_append]
      exact List.append_cancel_left hx
    dsimp only
    rw [hfeed]
    dsimp only
    rw [ih (acc ++ ks.map (fun g => (g, false))) r' rest hwfrest hrest hpr',
      hgs, List.map_append, List.append_assoc]

/-! ## Claim C1: chunk independence of reassembly -/

/--
C1 (amended).  Chunk independence for the four length-prefixed frame
types: if a byte sequence is a concatenation of complete well-formed
Command / ACL-Data / SCO-Data / Event frames, then feeding it to a
direction's reassembler in any partition into chunks whatsoever yields
exactly those frames, in order, with an empty leftover — in particular
every partition (one call, single bytes, arbitrary chunks) yields the
identical extracted sequence.  (The restriction to non-vendor frames is
forced: Vendor/Internal frames are parsed as "consume everything
buffered" and are therefore chunk-dependent, see the counterexample.)
-/
theorem c1_chunk_independence_nonvendor (gs chunks : List (List Nat))
    (hwf : ∀ g ∈ gs, wfPacket g) (hpart : chunks.flatten = gs.flatten) :
    feedChunks chunks = (gs.map (fun g => (g, false)), []) := by
  unfold feedChunks
  exact feedChunks_go chunks [] [] gs hwf (by simpa using hpart) (Or.inl rfl)

/-- Counterexample for C1 as stated: `ff 01` is a complete well-formed
Vendor/Internal frame (the resolver reports exactly its length) and
`04 0e 00` a complete Event frame, yet feeding their concatenation whole
emits one 5-byte vendor frame while feeding it at the frame boundary
emits the two frames — the partitions disagree. -/
theorem c1_counterexample :
    (get_packet_len [0xff, 0x01]).1 = (([0xff, 0x01] : List Nat).length : Int) ∧
    (get_packet_len [0x04, 0x0e, 0x00]).1 = (([0x04, 0x0e, 0x00] : List Nat).length : Int) ∧
    [[0xff, 0x01], [0x04, 0x0e, 0x00]].flatten =
      [[0xff, 0x01, 0x04, 0x0e, 0x00]].flatten ∧
    feedChunks [[0xff, 0x01], [0x04, 0x0e, 0x00]] ≠
      feedChunks [[0xff, 0x01, 0x04, 0x0e, 0x00]] := by
  refine ⟨?_, ?_, ?_, ?_⟩ <;> decide

/-- Witness for C1 (amended): the Event frame `04 0e 02 09 09` split in
the middle of its header still comes out as the one frame. -/
theorem c1_witness :
    feedChunks [[0x04, 0x0e], [0x02, 0x09, 0x09]] =
      ([([0x04, 0x0e, 0x02, 0x09, 0x09], false)], []) := by
  have h := c1_chunk_independence_nonvendor [[0x04, 0x0e, 0x02, 0x09, 0x09]]
    [[0x04, 0x0e], [0x02, 0x09, 0x09]] (by decide) (by decide)
  simpa using h

end Bridge
